import Mathlib

/-!
# Verification of the HQ-Trivia game core

A shallow embedding of the trivia-game server core (`hqtrivia/gamesession.py`,
`hqtrivia/gamemanager.py`, `hqtrivia/player.py`) together with proofs about it.

Modelling conventions:
* a `Player` (the Python `Player` / ConnectionHandle object) is identified by a
  natural number; its `asyncio.Future` is modelled by a per-player counter of
  how many times `set_result` has been called on it;
* per-message transport errors are absorbed inside the connection handle in
  the source (`send_json_rpc_request` catches `ConnectionClosed`,
  `send_question_and_get_answer` catches every exception around the receive),
  so message sends never raise in the model; the only raising operation is
  `Question.generate`, modelled as an `Option Question` supplied by the
  environment for each round;
* `asyncio` interleaving is irrelevant to the properties proved here (each
  round joins on all per-player interactions before proceeding), so a round is
  a sequential state transformation and the log order among players within one
  broadcast is fixed arbitrarily;
* Python `None` appears either as `Option.none` (for optional answer strings)
  or as `JVal.null` (for decoded JSON values).
-/

/-- `hqtrivia/question.py`: `Question.__init__` — one multiple-choice question. -/
structure Question where
  question : String
  choices : List String
  answer : String
deriving DecidableEq

/-- A decoded JSON value, as produced by Python's `json.loads`.  Python `None`
is `JVal.null`. -/
inductive JVal where
  | null : JVal
  | str : String → JVal
  | num : Int → JVal
  | arr : List JVal → JVal
  | obj : List (String × JVal) → JVal

/-- Lookup of a key in a decoded JSON object (Python `d[k]` succeeding iff the
key is present). -/
def lookupKey (k : String) : List (String × JVal) → Option JVal
  | [] => none
  | (k', v) :: rest => if k' = k then some v else lookupKey k rest

/-- `hqtrivia/player.py`: `Player.send_question` builds
`question.__dict__.copy()` (insertion order: `question`, `choices`, `answer`)
and then executes `del params['answer']`. -/
def questionDict (q : Question) : List (String × JVal) :=
  [("question", JVal.str q.question),
   ("choices", JVal.arr (q.choices.map JVal.str)),
   ("answer", JVal.str q.answer)]

/-- Python `del d[k]` on the attribute dict, as key removal on the
association list. -/
def delKey (k : String) (d : List (String × JVal)) : List (String × JVal) :=
  d.filter (fun kv => kv.1 ≠ k)

/-- `hqtrivia/player.py`: `Player.send_json_rpc_request` — wraps `method` and
`params` into a JSON-RPC request carrying the connection's next request id,
and increments that id. -/
def sendJsonRpcRequest (reqId : Nat) (method : String) (params : List (String × JVal)) :
    JVal × Nat :=
  (JVal.obj [("id", JVal.num reqId), ("method", JVal.str method), ("params", JVal.obj params)],
   reqId + 1)

/-- `hqtrivia/player.py`: the params object sent by `Player.send_question`. -/
def sendQuestionParams (q : Question) : List (String × JVal) :=
  delKey "answer" (questionDict q)

/-- `hqtrivia/player.py`: the full outbound `ask_question` message produced by
`Player.send_question`, together with the next request id. -/
def sendQuestionMessage (reqId : Nat) (q : Question) : JVal × Nat :=
  sendJsonRpcRequest reqId "ask_question" (sendQuestionParams q)

/-- The outcome of `websocket.recv()` followed by `json.loads` inside
`Player.receive_json_rpc_response`: the connection was closed, the received
text was not valid JSON, or a decoded JSON value was obtained. -/
inductive RecvOutcome where
  | closed : RecvOutcome
  | invalidJson : RecvOutcome
  | message : JVal → RecvOutcome

/-- `hqtrivia/player.py`: `Player.receive_json_rpc_response`.  On a closed
connection the received text is set to `None` and the subsequent `json.loads`
failure is caught; on any parse/extraction failure (invalid JSON, non-object
value, or a missing `id`/`error`/`result` key raising `KeyError`/`TypeError`)
the bare `except:` returns `(None, None, None)`. -/
def receiveJsonRpcResponse : RecvOutcome → JVal × JVal × JVal
  | RecvOutcome.closed => (JVal.null, JVal.null, JVal.null)
  | RecvOutcome.invalidJson => (JVal.null, JVal.null, JVal.null)
  | RecvOutcome.message v =>
    match v with
    | JVal.obj fields =>
      match lookupKey "id" fields, lookupKey "error" fields, lookupKey "result" fields with
      | some i, some e, some r => (i, e, r)
      | _, _, _ => (JVal.null, JVal.null, JVal.null)
    | _ => (JVal.null, JVal.null, JVal.null)

/-- `hqtrivia/player.py`: `Player.recv_answer` — returns only the `result`
component of the JSON-RPC response. -/
def recvAnswer (o : RecvOutcome) : JVal :=
  (receiveJsonRpcResponse o).2.2

/-- The outcome of one player's interaction in
`GameSession.send_question_and_get_answer`: `recv_answer` returned a value
within the timeout, the `asyncio.wait_for` timed out, or some other exception
was raised while sending/receiving. -/
inductive PlayerRecv where
  | response : Option String → PlayerRecv
  | timeout : PlayerRecv
  | errored : PlayerRecv

/-- `hqtrivia/gamesession.py`: `GameSession.send_question_and_get_answer` —
returns the received answer, or `None` on timeout (`except asyncio.TimeoutError`)
or on any other error (bare `except:`). -/
def sendQuestionAndGetAnswer : PlayerRecv → Option String
  | PlayerRecv.response r => r
  | PlayerRecv.timeout => none
  | PlayerRecv.errored => none

/-- `hqtrivia/gamesession.py`: the partition loop of
`broadcast_results_and_eliminate_players` — one pass over the players paired
with their answers, appending to `survivors` when
`question.answer == answers[i]` and to `eliminated` otherwise. -/
def partitionByAnswers (correct : String) : List (Nat × Option String) → List Nat × List Nat
  | [] => ([], [])
  | (p, a) :: rest =>
    let pe := partitionByAnswers correct rest
    if a = some correct then (p :: pe.1, pe.2) else (pe.1, p :: pe.2)

/-- `hqtrivia/gamesession.py`: the `collections.Counter` built in
`broadcast_results_and_eliminate_players` — `counter[x]` is the number of
answers equal to `x` (a missing key reads as `0`). -/
def answerCounter (answers : List (Option String)) : Option String → Nat :=
  fun a => answers.count a

/-- `hqtrivia/gamesession.py`: the `choice_counts` array built in
`broadcast_results_and_eliminate_players` — `choice_counts[i] =
counter[question.choices[i]]`. -/
def choiceCounts (choices : List String) (answers : List (Option String)) : List Nat :=
  choices.map (fun c => answerCounter answers (some c))

/-- Whether an answer value matches one of the question's valid choices. -/
def isValidChoice (choices : List String) : Option String → Bool
  | some s => decide (s ∈ choices)
  | none => false

namespace PartitionLemmas

theorem partition_append_perm (correct : String) (l : List (Nat × Option String)) :
    List.Perm ((partitionByAnswers correct l).1 ++ (partitionByAnswers correct l).2)
      (l.map Prod.fst) := by
  induction l with
  | nil => simp [partitionByAnswers]
  | cons pa rest ih =>
    obtain ⟨p, a⟩ := pa
    simp only [partitionByAnswers, List.map_cons]
    by_cases h : a = some correct
    · simp only [if_pos h]
      exact (ih.cons p)
    · simp only [if_neg h]
      exact List.perm_middle.trans (ih.cons p)

theorem mem_partition_fst {correct : String} {l : List (Nat × Option String)}
    {p : Nat} {a : Option String} (hmem : (p, a) ∈ l) (ha : a = some correct) :
    p ∈ (partitionByAnswers correct l).1 := by
  induction l with
  | nil => cases hmem
  | cons pa rest ih =>
    obtain ⟨q, b⟩ := pa
    rcases List.mem_cons.mp hmem with h | h
    · obtain ⟨hq, hb⟩ := Prod.mk.injEq .. ▸ h
      subst hq hb
      simp [partitionByAnswers, if_pos ha]
    · have := ih h
      by_cases hb : b = some correct
      · simp only [partitionByAnswers, if_pos hb]
        exact List.mem_cons_of_mem _ this
      · simpa only [partitionByAnswers, if_neg hb] using this

theorem mem_partition_snd {correct : String} {l : List (Nat × Option String)}
    {p : Nat} {a : Option String} (hmem : (p, a) ∈ l) (ha : a ≠ some correct) :
    p ∈ (partitionByAnswers correct l).2 := by
  induction l with
  | nil => cases hmem
  | cons pa rest ih =>
    obtain ⟨q, b⟩ := pa
    rcases List.mem_cons.mp hmem with h | h
    · obtain ⟨hq, hb⟩ := Prod.mk.injEq .. ▸ h
      subst hq hb
      simp [partitionByAnswers, if_neg ha]
    · have := ih h
      by_cases hb : b = some correct
      · simpa only [partitionByAnswers, if_pos hb] using this
      · simp only [partitionByAnswers, if_neg hb]
        exact List.mem_cons_of_mem _ this

theorem mem_of_mem_partition {correct : String} {l : List (Nat × Option String)} {p : Nat} :
    (p ∈ (partitionByAnswers correct l).1 ∨ p ∈ (partitionByAnswers correct l).2) →
      p ∈ l.map Prod.fst := by
  intro h
  exact (partition_append_perm correct l).mem_iff.mp (List.mem_append.mpr h)

theorem partition_nodup {correct : String} {l : List (Nat × Option String)}
    (h : (l.map Prod.fst).Nodup) :
    ((partitionByAnswers correct l).1 ++ (partitionByAnswers correct l).2).Nodup :=
  ((partition_append_perm correct l).nodup_iff).mpr h

end PartitionLemmas

/-- C2: for a round run on a player list and an answer list of equal length,
`|survivors| + |eliminated| = |players|` and (the player handles being unique)
every player lands in exactly one of the two partitions.  This is the partition
loop of `broadcast_results_and_eliminate_players` in `hqtrivia/gamesession.py`. -/
theorem round_partition_reconciles (correct : String) (players : List Nat)
    (answers : List (Option String)) (hlen : answers.length = players.length)
    (hnd : players.Nodup) :
    (partitionByAnswers correct (players.zip answers)).1.length +
        (partitionByAnswers correct (players.zip answers)).2.length = players.length ∧
      ∀ p ∈ players,
        (p ∈ (partitionByAnswers correct (players.zip answers)).1 ∧
            p ∉ (partitionByAnswers correct (players.zip answers)).2) ∨
          (p ∈ (partitionByAnswers correct (players.zip answers)).2 ∧
            p ∉ (partitionByAnswers correct (players.zip answers)).1) := by
  have hfst : (players.zip answers).map Prod.fst = players :=
    List.map_fst_zip players answers (le_of_eq hlen.symm)
  have hperm := PartitionLemmas.partition_append_perm correct (players.zip answers)
  rw [hfst] at hperm
  constructor
  · have := hperm.length_eq
    simpa using this
  · intro p hp
    have hnd2 : ((partitionByAnswers correct (players.zip answers)).1 ++
        (partitionByAnswers correct (players.zip answers)).2).Nodup := by
      have h0 : ((players.zip answers).map Prod.fst).Nodup := by
        rw [hfst]
        exact hnd
      exact PartitionLemmas.partition_nodup h0
    have hdisj := List.disjoint_of_nodup_append hnd2
    have hmem : p ∈ (partitionByAnswers correct (players.zip answers)).1 ++
        (partitionByAnswers correct (players.zip answers)).2 := hperm.mem_iff.mpr hp
    rcases List.mem_append.mp hmem with h | h
    · exact Or.inl ⟨h, fun h2 => hdisj h h2⟩
    · exact Or.inr ⟨h, fun h2 => hdisj h2 h⟩

/-- Witness for `round_partition_reconciles` at a concrete round: two players,
one correct answer, one absent answer. -/
theorem round_partition_reconciles_witness :
    (partitionByAnswers "A" ([1, 2].zip [some "A", none])).1.length +
        (partitionByAnswers "A" ([1, 2].zip [some "A", none])).2.length = [1, 2].length ∧
      ∀ p ∈ [1, 2],
        (p ∈ (partitionByAnswers "A" ([1, 2].zip [some "A", none])).1 ∧
            p ∉ (partitionByAnswers "A" ([1, 2].zip [some "A", none])).2) ∨
          (p ∈ (partitionByAnswers "A" ([1, 2].zip [some "A", none])).2 ∧
            p ∉ (partitionByAnswers "A" ([1, 2].zip [some "A", none])).1) :=
  round_partition_reconciles "A" [1, 2] [some "A", none] (by decide) (by decide)

/-- C3: a player whose answer exactly equals the question's correct choice is
placed in `survivors`; every other player, including one whose receive timed
out or errored (`send_question_and_get_answer` then returns `None`), is placed
in `eliminated`, absent being treated exactly like a wrong answer. -/
theorem answer_decides_partition (correct : String) (players : List Nat)
    (answers : List (Option String)) (p : Nat) (a : Option String)
    (hmem : (p, a) ∈ players.zip answers) :
    (a = some correct → p ∈ (partitionByAnswers correct (players.zip answers)).1) ∧
      (a ≠ some correct → p ∈ (partitionByAnswers correct (players.zip answers)).2) ∧
      (a = none → p ∈ (partitionByAnswers correct (players.zip answers)).2) ∧
      sendQuestionAndGetAnswer PlayerRecv.timeout = none ∧
      sendQuestionAndGetAnswer PlayerRecv.errored = none := by
  refine ⟨fun ha => PartitionLemmas.mem_partition_fst hmem ha,
    fun ha => PartitionLemmas.mem_partition_snd hmem ha, fun ha => ?_, rfl, rfl⟩
  exact PartitionLemmas.mem_partition_snd hmem (by simp [ha])

/-- Witness for `answer_decides_partition`: the second player's receive timed
out, so its answer is the absent value and it is eliminated. -/
theorem answer_decides_partition_witness :
    ((none : Option String) = some "A" →
        2 ∈ (partitionByAnswers "A" ([1, 2].zip [some "A", none])).1) ∧
      ((none : Option String) ≠ some "A" →
        2 ∈ (partitionByAnswers "A" ([1, 2].zip [some "A", none])).2) ∧
      ((none : Option String) = none →
        2 ∈ (partitionByAnswers "A" ([1, 2].zip [some "A", none])).2) ∧
      sendQuestionAndGetAnswer PlayerRecv.timeout = none ∧
      sendQuestionAndGetAnswer PlayerRecv.errored = none :=
  answer_decides_partition "A" [1, 2] [some "A", none] 2 none (by decide)

namespace TallyLemmas

theorem sum_map_add_nat (f g : String → Nat) (l : List String) :
    (l.map (fun c => f c + g c)).sum = (l.map f).sum + (l.map g).sum := by
  induction l with
  | nil => simp
  | cons c rest ih => simp [ih]; omega

theorem sum_ite_eq_mem (s : String) {choices : List String} (hnd : choices.Nodup) :
    (choices.map (fun c => if c = s then 1 else 0)).sum = if s ∈ choices then 1 else 0 := by
  induction choices with
  | nil => simp
  | cons c cs ih =>
    rcases List.nodup_cons.mp hnd with ⟨hc, hcs⟩
    by_cases h : s = c
    · subst h
      have h0 : (cs.map (fun d => if d = s then 1 else 0)).sum = 0 := by
        rw [ih hcs, if_neg hc]
      simp [h0]
    · have h' : ¬c = s := fun hh => h hh.symm
      simp [h', ih hcs, List.mem_cons, h]

end TallyLemmas

/-- The sum of the broadcast `choice_counts` array equals the number of
answers that are valid choices (the choices being distinct). -/
theorem choiceCounts_sum (choices : List String) (answers : List (Option String))
    (hnd : choices.Nodup) :
    (choiceCounts choices answers).sum = answers.countP (isValidChoice choices) := by
  induction answers with
  | nil => simp [choiceCounts, answerCounter]
  | cons a rest ih =>
    have hsplit : choiceCounts choices (a :: rest) =
        choices.map (fun c => answerCounter rest (some c) +
          if (some c : Option String) = a then 1 else 0) := by
      apply List.map_congr_left
      intro c _
      simp only [answerCounter, List.count_cons]
      congr 1
      by_cases h : (some c : Option String) = a
      · have h' : (a == (some c : Option String)) = true := by
          simpa [beq_iff_eq] using h.symm
        rw [if_pos h', if_pos h]
      · have h' : ¬(a == (some c : Option String)) = true := by
          simpa [beq_iff_eq] using fun hh => h hh.symm
        rw [if_neg h', if_neg h]
    rw [hsplit, TallyLemmas.sum_map_add_nat, List.countP_cons]
    have hih : (choices.map (fun c => answerCounter rest (some c))).sum =
        rest.countP (isValidChoice choices) := ih
    rw [hih]
    congr 1
    cases a with
    | none =>
      simp [isValidChoice]
    | some s =>
      have hmap : choices.map (fun c => if (some c : Option String) = some s then 1 else 0) =
          choices.map (fun c => if c = s then 1 else 0) := by
        apply List.map_congr_left
        intro c _
        simp
      rw [hmap, TallyLemmas.sum_ite_eq_mem s hnd]
      simp [isValidChoice]

/-- C4 counterexample: one player whose receive timed out (the answers list
produced by `broadcast_question_and_wait_for_answers` is `[none]`).  The
broadcast `choice_counts` array sums to `0`, not to the number of players
before the round (`1`): absent answers contribute no entry to the tally that
is actually broadcast. -/
theorem broadcast_tally_misses_absent :
    (choiceCounts ["A", "B"] [none]).sum ≠ ([7] : List Nat).length := by
  decide

/-- C4 amended: the sum of the broadcast tally (`choice_counts`) equals the
number of players whose answer exactly matched one of the (distinct) valid
choices; players who gave no answer, or an answer matching no valid choice,
contribute one entry to the internal `Counter` but none to the broadcast
tally. -/
theorem broadcast_tally_counts_valid_answers (choices : List String)
    (answers : List (Option String)) (hnd : choices.Nodup) :
    (choiceCounts choices answers).sum = answers.countP (isValidChoice choices) ∧
      ∀ a : Option String, answerCounter answers a = answers.count a :=
  ⟨choiceCounts_sum choices answers hnd, fun _ => rfl⟩

/-- Witness for `broadcast_tally_counts_valid_answers`: three answers of which
exactly one matches a valid choice. -/
theorem broadcast_tally_counts_valid_answers_witness :
    (choiceCounts ["A", "B"] [some "A", none, some "C"]).sum =
        ([some "A", none, some "C"] : List (Option String)).countP (isValidChoice ["A", "B"]) ∧
      ∀ a : Option String, answerCounter [some "A", none, some "C"] a =
        ([some "A", none, some "C"] : List (Option String)).count a :=
  broadcast_tally_counts_valid_answers ["A", "B"] [some "A", none, some "C"] (by decide)

/-- C9: for every question and request id, the outbound `ask_question` message
built by `Player.send_question` carries the prompt and the choices in its
params but never the correct-choice field, whatever the correct choice is. -/
theorem send_question_omits_answer (reqId : Nat) (q : Question) :
    (sendQuestionMessage reqId q).1 =
        JVal.obj [("id", JVal.num reqId), ("method", JVal.str "ask_question"),
          ("params", JVal.obj (sendQuestionParams q))] ∧
      lookupKey "answer" (sendQuestionParams q) = none ∧
      lookupKey "question" (sendQuestionParams q) = some (JVal.str q.question) ∧
      lookupKey "choices" (sendQuestionParams q) = some (JVal.arr (q.choices.map JVal.str)) := by
  refine ⟨rfl, ?_, ?_, ?_⟩ <;>
    simp [sendQuestionParams, questionDict, delKey, lookupKey]

/-- C10: receiving an answer is total at the public interface.  If the
connection is closed, the received text is not valid JSON, the decoded value
is not an object, or the object lacks any of the `id`/`error`/`result` keys,
`recv_answer` returns the absent value (Python `None`, i.e. `JVal.null`)
instead of propagating a parse error: `receive_json_rpc_response` catches
every failure with a bare `except:` and returns `(None, None, None)`. -/
theorem recv_answer_total (fields : List (String × JVal)) (v : JVal) :
    recvAnswer RecvOutcome.closed = JVal.null ∧
      recvAnswer RecvOutcome.invalidJson = JVal.null ∧
      ((lookupKey "id" fields = none ∨ lookupKey "error" fields = none ∨
          lookupKey "result" fields = none) →
        recvAnswer (RecvOutcome.message (JVal.obj fields)) = JVal.null) ∧
      ((∀ f, v ≠ JVal.obj f) → recvAnswer (RecvOutcome.message v) = JVal.null) := by
  refine ⟨rfl, rfl, fun h => ?_, fun h => ?_⟩
  · cases hid : lookupKey "id" fields <;> cases herr : lookupKey "error" fields <;>
      cases hres : lookupKey "result" fields <;>
      simp_all [recvAnswer, receiveJsonRpcResponse]
  · cases v with
    | obj f => exact absurd rfl (h f)
    | null => rfl
    | str s => rfl
    | num n => rfl
    | arr l => rfl

/-- Witness for `recv_answer_total`: an object message missing all three keys
yields the absent value. -/
theorem recv_answer_total_witness :
    recvAnswer RecvOutcome.closed = JVal.null ∧
      recvAnswer RecvOutcome.invalidJson = JVal.null ∧
      ((lookupKey "id" [] = none ∨ lookupKey "error" [] = none ∨
          lookupKey "result" [] = none) →
        recvAnswer (RecvOutcome.message (JVal.obj [])) = JVal.null) ∧
      ((∀ f, JVal.str "x" ≠ JVal.obj f) →
        recvAnswer (RecvOutcome.message (JVal.str "x")) = JVal.null) :=
  recv_answer_total [] (JVal.str "x")

/-- An outbound message kind, as sent through `Player.send_announcement`,
`Player.send_question` and `Player.send_answers` (`hqtrivia/messages.py`
holds the announcement texts). -/
inductive Msg where
  | roundStarting : Nat → Msg
  | askQuestion : String → List String → Msg
  | answersStats : Question → List Nat → Msg
  | correctAnswer : Msg
  | eliminatedMsg : Msg
  | winner : Msg
  | networkError : Msg
  | waitingForPlayers : Nat → Msg
deriving DecidableEq

/-- `hqtrivia/gamesession.py`: the mutable state of a `GameSession`
(`game_id`, `players`, `current_round`), together with the observable effects:
`futureCount p` counts the `player.future.set_result(None)` calls made on
player `p`, `log` records every outbound message as a `(player, message)`
pair, and `providerCalls` counts the `Question.generate()` invocations. -/
structure SessionState where
  gameId : Nat
  players : List Nat
  currentRound : Nat
  futureCount : Nat → Nat
  log : List (Nat × Msg)
  providerCalls : Nat

/-- `GameSession.__init__`: stores the id and a copy of the player list,
`current_round = 0`; no futures set, nothing sent yet. -/
def initState (gid : Nat) (ps : List Nat) : SessionState :=
  { gameId := gid
    players := ps
    currentRound := 0
    futureCount := fun _ => 0
    log := []
    providerCalls := 0 }

/-- Sequentially calling `future.set_result(None)` on each listed player. -/
def signalAll : List Nat → (Nat → Nat) → Nat → Nat
  | [], f => f
  | p :: ps, f => signalAll ps (fun q => if q = p then f q + 1 else f q)

/-- The per-round environment: the outcome of `Question.generate()` (`none`
models the upstream call raising) and each player's receive outcome. -/
structure RoundEnv where
  q? : Option Question
  answerOf : Nat → PlayerRecv

/-- `hqtrivia/gamesession.py`: `GameSession.broadcast_question_and_wait_for_answers`
— announces the round start to every player, sends the question, and gathers
each player's answer (in player-list order). -/
def broadcastQuestionAndWaitForAnswers (q : Question) (answerOf : Nat → PlayerRecv)
    (s : SessionState) : SessionState × List (Option String) :=
  ({ s with log := s.log ++ s.players.map (fun p => (p, Msg.roundStarting s.currentRound))
        ++ s.players.map (fun p => (p, Msg.askQuestion q.question q.choices)) },
   s.players.map (fun p => sendQuestionAndGetAnswer (answerOf p)))

/-- `hqtrivia/gamesession.py`: `GameSession.broadcast_results` — sends the
statistics to all players, then the survival announcement to the survivors and
the elimination announcement to the eliminated. -/
def broadcastResults (allPlayers survivors eliminated : List Nat) (q : Question)
    (counts : List Nat) (s : SessionState) : SessionState :=
  { s with log := s.log ++ allPlayers.map (fun p => (p, Msg.answersStats q counts))
        ++ survivors.map (fun p => (p, Msg.correctAnswer))
        ++ eliminated.map (fun p => (p, Msg.eliminatedMsg)) }

/-- `hqtrivia/gamesession.py`: `GameSession.broadcast_results_and_eliminate_players`
— partitions the players by their answers, builds `choice_counts`, broadcasts
the results, replaces `self.players` with the survivors, and returns the
eliminated players. -/
def broadcastResultsAndEliminatePlayers (q : Question) (answers : List (Option String))
    (s : SessionState) : SessionState × List Nat :=
  let survivors := (partitionByAnswers q.answer (s.players.zip answers)).1
  let eliminated := (partitionByAnswers q.answer (s.players.zip answers)).2
  let counts := choiceCounts q.choices answers
  let s1 := broadcastResults s.players survivors eliminated q counts s
  ({ s1 with players := survivors }, eliminated)

/-- `hqtrivia/gamesession.py`: `GameSession.handle_eliminated_players` — sets
the completion future of each listed player. -/
def handleEliminatedPlayers (ps : List Nat) (s : SessionState) : SessionState :=
  { s with futureCount := signalAll ps s.futureCount }

/-- `hqtrivia/gamesession.py`: `GameSession.notify_winner_if_one_remaining` —
if exactly one player remains, announce the win, set that player's future and
remove them; returns whether players remain (the loop-continue flag). -/
def notifyWinnerIfOneRemaining (s : SessionState) : Bool × SessionState :=
  match s.players with
  | [p] => (false, { s with
      log := s.log ++ [(p, Msg.winner)]
      futureCount := signalAll [p] s.futureCount
      players := [] })
  | _ => (!s.players.isEmpty, s)

/-- The middle of `GameSession.execute_next_round` on a successfully generated
question: round increment, question broadcast and answer collection, result
broadcast with elimination, and the future signalling of the eliminated. -/
def roundMid (env : RoundEnv) (q : Question) (s : SessionState) : SessionState :=
  let s1 := { s with
    currentRound := s.currentRound + 1
    providerCalls := s.providerCalls + 1 }
  let pa := broadcastQuestionAndWaitForAnswers q env.answerOf s1
  let pe := broadcastResultsAndEliminatePlayers q pa.2 pa.1
  handleEliminatedPlayers pe.2 pe.1

/-- `hqtrivia/gamesession.py`: `GameSession.execute_next_round` — increments
the round counter, generates a question (the exception from a failed
`Question.generate()` propagates as `.error` carrying the state at the raise
point), broadcasts it, collects answers, broadcasts results, eliminates the
losers, sets their futures, and notifies a single remaining winner.  Returns
the continue flag of the `run()` loop. -/
def executeNextRound (env : RoundEnv) (s : SessionState) :
    Except SessionState (Bool × SessionState) :=
  match env.q? with
  | none => Except.error { s with
      currentRound := s.currentRound + 1
      providerCalls := s.providerCalls + 1 }
  | some q =>
    let bs := notifyWinnerIfOneRemaining (roundMid env q s)
    Except.ok (bs.1, bs.2)

/-- `hqtrivia/gamesession.py`: `GameSession.abort_game` — broadcasts the
network-error announcement to every remaining player, sets all their futures,
and clears the player list. -/
def abortGame (s : SessionState) : SessionState :=
  { s with
    log := s.log ++ s.players.map (fun p => (p, Msg.networkError))
    futureCount := signalAll s.players s.futureCount
    players := [] }

/-- How `GameSession.run()` ended: the loop returned normally, an exception
escaped (after `abort_game()` the `raise` re-raises it to the caller), or the
supplied round environments ran out while the game was still going (the model's
fuel; the Python loop would keep running). -/
inductive RunOutcome where
  | finished : RunOutcome
  | aborted : RunOutcome
  | outOfFuel : RunOutcome
deriving DecidableEq

/-- `hqtrivia/gamesession.py`: `GameSession.run` — repeatedly executes rounds
while `execute_next_round()` returns true; on an exception, calls
`abort_game()` and re-raises (`.aborted`). -/
def runSession : List RoundEnv → SessionState → RunOutcome × SessionState
  | [], s => (RunOutcome.outOfFuel, s)
  | env :: rest, s =>
    match executeNextRound env s with
    | Except.error sFail => (RunOutcome.aborted, abortGame sFail)
    | Except.ok (true, s') => runSession rest s'
    | Except.ok (false, s') => (RunOutcome.finished, s')

/-- The answers gathered for the current player list, in list order
(`broadcast_question_and_wait_for_answers` returns them in `self.players`
order). -/
def roundAnswers (env : RoundEnv) (s : SessionState) : List (Option String) :=
  s.players.map (fun p => sendQuestionAndGetAnswer (env.answerOf p))

/-- The survivors computed by the current round's partition. -/
def roundSurvivors (env : RoundEnv) (q : Question) (s : SessionState) : List Nat :=
  (partitionByAnswers q.answer (s.players.zip (roundAnswers env s))).1

/-- The eliminated players computed by the current round's partition. -/
def roundEliminated (env : RoundEnv) (q : Question) (s : SessionState) : List Nat :=
  (partitionByAnswers q.answer (s.players.zip (roundAnswers env s))).2

theorem roundMid_eq (env : RoundEnv) (q : Question) (s : SessionState) :
    roundMid env q s =
      { s with
        currentRound := s.currentRound + 1
        providerCalls := s.providerCalls + 1
        players := roundSurvivors env q s
        futureCount := signalAll (roundEliminated env q s) s.futureCount
        log := s.log
          ++ s.players.map (fun p => (p, Msg.roundStarting (s.currentRound + 1)))
          ++ s.players.map (fun p => (p, Msg.askQuestion q.question q.choices))
          ++ s.players.map (fun p =>
              (p, Msg.answersStats q (choiceCounts q.choices (roundAnswers env s))))
          ++ (roundSurvivors env q s).map (fun p => (p, Msg.correctAnswer))
          ++ (roundEliminated env q s).map (fun p => (p, Msg.eliminatedMsg)) } :=
  rfl

/-- The session state carried by the result of `execute_next_round`, whether
it returned or raised. -/
def resultState : Except SessionState (Bool × SessionState) → SessionState
  | Except.error s => s
  | Except.ok (_, s) => s

/-- C6 counterexample: `execute_next_round` invoked on a session with zero
players still contacts the Question Provider — `Question.generate()` is called
unconditionally (one provider call is recorded), and when that call fails the
exception propagates instead of an immediate empty-partition return. -/
theorem zero_players_still_contacts_provider :
    (resultState (executeNextRound
        ⟨some ⟨"q", ["A", "B"], "A"⟩, fun _ => PlayerRecv.timeout⟩
        (initState 1 []))).providerCalls = 1 ∧
      executeNextRound ⟨none, fun _ => PlayerRecv.timeout⟩ (initState 1 []) =
        Except.error { initState 1 [] with currentRound := 1, providerCalls := 1 } :=
  ⟨rfl, rfl⟩

/-- C6 amended: with zero players, `execute_next_round` still fetches a
question from the provider; when the fetch succeeds it completes without
crashing — the partition is empty, nothing is sent, no future is set, the
player list stays empty and the round reports the game over (returns false) —
but the provider has been contacted, and a failed fetch propagates. -/
theorem executeNextRound_zero_players (env : RoundEnv) (q : Question) (s : SessionState)
    (hq : env.q? = some q) (hp : s.players = []) :
    executeNextRound env s =
      Except.ok (false, { s with
        currentRound := s.currentRound + 1
        providerCalls := s.providerCalls + 1 }) := by
  obtain ⟨gid, ps, cr, fc, lg, pc⟩ := s
  simp only [SessionState.players] at hp
  subst hp
  simp [executeNextRound, hq, roundMid, broadcastQuestionAndWaitForAnswers,
    broadcastResultsAndEliminatePlayers, broadcastResults, handleEliminatedPlayers,
    notifyWinnerIfOneRemaining, partitionByAnswers, signalAll]

/-- Witness for `executeNextRound_zero_players` at a concrete environment and
state. -/
theorem executeNextRound_zero_players_witness :
    executeNextRound ⟨some ⟨"q", ["A", "B"], "A"⟩, fun _ => PlayerRecv.timeout⟩
        (initState 3 []) =
      Except.ok (false, { initState 3 [] with currentRound := 1, providerCalls := 1 }) :=
  executeNextRound_zero_players ⟨some ⟨"q", ["A", "B"], "A"⟩, fun _ => PlayerRecv.timeout⟩
    ⟨"q", ["A", "B"], "A"⟩ (initState 3 []) rfl rfl

/-- C7 counterexample: the round operation does mutate session state —
`broadcast_results_and_eliminate_players` reassigns `self.players` to the
survivors (line `self.players = survivors`).  Concretely, with one player who
gave no answer, the players list changes from `[5]` to `[]`. -/
theorem round_broadcast_mutates_players :
    (broadcastResultsAndEliminatePlayers ⟨"q", ["A", "B"], "A"⟩ [none] (initState 1 [5])).1.players ≠
      (initState 1 [5]).players := by
  decide

/-- C7 amended: the elimination/tally computation of a round is a pure
function of the players, question and answers, and
`broadcast_results_and_eliminate_players` sets no completion future and does
not touch the round counter — but it does mutate the session's player list,
replacing it with the survivors (and `execute_next_round` both increments the
round counter and itself calls `handle_eliminated_players`, the completion
signal, on the eliminated players). -/
theorem round_broadcast_frame (q : Question) (answers : List (Option String))
    (s : SessionState) :
    (broadcastResultsAndEliminatePlayers q answers s).1.futureCount = s.futureCount ∧
      (broadcastResultsAndEliminatePlayers q answers s).1.currentRound = s.currentRound ∧
      (broadcastResultsAndEliminatePlayers q answers s).1.players =
        (partitionByAnswers q.answer (s.players.zip answers)).1 ∧
      (broadcastResultsAndEliminatePlayers q answers s).2 =
        (partitionByAnswers q.answer (s.players.zip answers)).2 :=
  ⟨rfl, rfl, rfl, rfl⟩

theorem signalAll_apply (ps : List Nat) (f : Nat → Nat) (q : Nat) :
    signalAll ps f q = f q + ps.count q := by
  induction ps generalizing f with
  | nil => simp [signalAll]
  | cons p rest ih =>
    rw [signalAll, ih]
    by_cases h : q = p
    · subst h
      simp [List.count_cons]
      omega
    · simp [h, List.count_cons]

/-- Player `p` has received a terminal game message (elimination or win). -/
def TermEW (p : Nat) (log : List (Nat × Msg)) : Prop :=
  (p, Msg.eliminatedMsg) ∈ log ∨ (p, Msg.winner) ∈ log

theorem TermEW_append {p : Nat} {l1 l2 : List (Nat × Msg)} :
    TermEW p (l1 ++ l2) ↔ TermEW p l1 ∨ TermEW p l2 := by
  simp only [TermEW, List.mem_append]
  tauto

theorem TermEW_map_mem {p : Nat} {ps : List Nat} {m : Msg} :
    TermEW p (ps.map (fun q => (q, m))) → p ∈ ps := by
  rintro (h | h) <;>
    · rcases List.mem_map.mp h with ⟨q, hq, heq⟩
      cases heq
      exact hq

theorem not_TermEW_map {p : Nat} {ps : List Nat} {m : Msg}
    (h1 : m ≠ Msg.eliminatedMsg) (h2 : m ≠ Msg.winner) :
    ¬ TermEW p (ps.map (fun q => (q, m))) := by
  rintro (h | h) <;>
    · rcases List.mem_map.mp h with ⟨q, hq, heq⟩
      rcases Prod.mk.injEq .. ▸ heq with ⟨h3, h4⟩
      first
        | exact h1 h4
        | exact h2 h4

/-- The session invariant: the remaining players are distinct members of the
set that entered the session, each with an unset future and no terminal
message yet; every player that has left the session had its future set exactly
once and received an elimination or winner announcement; nobody else's future
was ever touched. -/
def SInv (entered : List Nat) (s : SessionState) : Prop :=
  s.players.Nodup ∧
    (∀ p, p ∈ s.players → p ∈ entered) ∧
    (∀ p, p ∉ entered → s.futureCount p = 0) ∧
    (∀ p, p ∈ entered →
      (p ∈ s.players ∧ s.futureCount p = 0 ∧ ¬ TermEW p s.log) ∨
        (p ∉ s.players ∧ s.futureCount p = 1 ∧ TermEW p s.log))

theorem initState_SInv (gid : Nat) (ps : List Nat) (hnd : ps.Nodup) :
    SInv ps (initState gid ps) := by
  refine ⟨hnd, fun p hp => hp, fun _ _ => rfl, fun p hp => Or.inl ⟨hp, rfl, ?_⟩⟩
  rintro (h | h) <;> cases h

theorem roundMid_players (env : RoundEnv) (q : Question) (s : SessionState) :
    (roundMid env q s).players = roundSurvivors env q s := rfl

theorem roundMid_futureCount (env : RoundEnv) (q : Question) (s : SessionState) (p : Nat) :
    (roundMid env q s).futureCount p =
      s.futureCount p + (roundEliminated env q s).count p := by
  simp only [roundMid_eq]
  exact signalAll_apply _ _ _

theorem TermEW_roundLog {p : Nat} {env : RoundEnv} {q : Question} {s : SessionState} :
    TermEW p (roundMid env q s).log ↔ TermEW p s.log ∨ p ∈ roundEliminated env q s := by
  simp only [roundMid_eq]
  rw [TermEW_append, TermEW_append, TermEW_append, TermEW_append, TermEW_append]
  constructor
  · rintro (((((h | h) | h) | h) | h) | h)
    · exact Or.inl h
    · exact (not_TermEW_map (by simp) (by simp) h).elim
    · exact (not_TermEW_map (by simp) (by simp) h).elim
    · exact (not_TermEW_map (by simp) (by simp) h).elim
    · exact (not_TermEW_map (by simp) (by simp) h).elim
    · exact Or.inr (TermEW_map_mem h)
  · rintro (h | h)
    · exact Or.inl (Or.inl (Or.inl (Or.inl (Or.inl h))))
    · exact Or.inr (Or.inl (List.mem_map.mpr ⟨p, h, rfl⟩))

theorem roundPartition_perm (env : RoundEnv) (q : Question) (s : SessionState) :
    List.Perm (roundSurvivors env q s ++ roundEliminated env q s) s.players := by
  have hlen : s.players.length ≤ (roundAnswers env s).length := by
    simp [roundAnswers]
  have hfst : (s.players.zip (roundAnswers env s)).map Prod.fst = s.players :=
    List.map_fst_zip _ _ hlen
  have h := PartitionLemmas.partition_append_perm q.answer (s.players.zip (roundAnswers env s))
  rw [hfst] at h
  exact h

theorem roundMid_inv (entered : List Nat) (env : RoundEnv) (q : Question)
    (s : SessionState) (h : SInv entered s) : SInv entered (roundMid env q s) := by
  obtain ⟨hnd, hsub, hout, hclause⟩ := h
  have hperm := roundPartition_perm env q s
  have hndSE : (roundSurvivors env q s ++ roundEliminated env q s).Nodup :=
    hperm.nodup_iff.mpr hnd
  obtain ⟨hndS, hndE, hdisj⟩ := List.nodup_append.mp hndSE
  have hsubS : ∀ p, p ∈ roundSurvivors env q s → p ∈ s.players := fun p hp =>
    hperm.mem_iff.mp (List.mem_append_left _ hp)
  have hsubE : ∀ p, p ∈ roundEliminated env q s → p ∈ s.players := fun p hp =>
    hperm.mem_iff.mp (List.mem_append_right _ hp)
  refine ⟨?_, ?_, ?_, ?_⟩
  · rw [roundMid_players]
    exact hndS
  · rw [roundMid_players]
    exact fun p hp => hsub p (hsubS p hp)
  · intro p hp
    rw [roundMid_futureCount, hout p hp,
      List.count_eq_zero_of_not_mem (fun hE => hp (hsub p (hsubE p hE)))]
  · intro p hp
    rw [roundMid_players]
    rcases hclause p hp with ⟨hin, hc0, hnt⟩ | ⟨hni, hc1, ht⟩
    · rcases List.mem_append.mp (hperm.mem_iff.mpr hin) with hS | hE
      · left
        refine ⟨hS, ?_, ?_⟩
        · rw [roundMid_futureCount, hc0,
            List.count_eq_zero_of_not_mem (fun hE => hdisj hS hE)]
        · intro hT
          rcases TermEW_roundLog.mp hT with hT | hT
          · exact hnt hT
          · exact hdisj hS hT
      · right
        refine ⟨fun hS => hdisj hS hE, ?_, ?_⟩
        · rw [roundMid_futureCount, hc0, List.count_eq_one_of_mem hndE hE]
        · exact TermEW_roundLog.mpr (Or.inr hE)
    · right
      refine ⟨fun hS => hni (hsubS p hS), ?_, ?_⟩
      · rw [roundMid_futureCount, hc1,
          List.count_eq_zero_of_not_mem (fun hE => hni (hsubE p hE))]
      · exact TermEW_roundLog.mpr (Or.inl ht)

theorem notifyWinner_inv (entered : List Nat) (s : SessionState) (h : SInv entered s) :
    SInv entered (notifyWinnerIfOneRemaining s).2 ∧
      ((notifyWinnerIfOneRemaining s).1 = false →
        (notifyWinnerIfOneRemaining s).2.players = []) := by
  obtain ⟨gid, ps, cr, fc, lg, pc⟩ := s
  obtain ⟨hnd, hsub, hout, hclause⟩ := h
  simp only [] at hnd hsub hout hclause
  rcases ps with _ | ⟨p, _ | ⟨p2, rest2⟩⟩
  · exact ⟨⟨hnd, hsub, hout, hclause⟩, fun _ => rfl⟩
  · have hpent : p ∈ entered := hsub p (List.mem_singleton_self p)
    refine ⟨⟨List.nodup_nil, fun r hr => absurd hr (List.not_mem_nil r), ?_, ?_⟩, fun _ => rfl⟩
    · intro r hr
      have hrp : r ≠ p := fun hh => hr (hh ▸ hpent)
      show signalAll [p] fc r = 0
      rw [signalAll_apply, (hout r hr : fc r = 0)]
      simp [List.count_cons, hrp]
    · intro r hr
      rcases hclause r hr with ⟨hin, hc0, hnt⟩ | ⟨hni, hc1, ht⟩
      · have hrp : r = p := List.mem_singleton.mp hin
        subst hrp
        right
        refine ⟨List.not_mem_nil r, ?_, Or.inr (List.mem_append_right _ (by simp))⟩
        show signalAll [r] fc r = 1
        rw [signalAll_apply, (hc0 : fc r = 0)]
        simp
      · have hrp : r ≠ p := fun hh => hni (hh ▸ List.mem_singleton_self p)
        right
        refine ⟨List.not_mem_nil r, ?_, TermEW_append.mpr (Or.inl ht)⟩
        show signalAll [p] fc r = 1
        rw [signalAll_apply, (hc1 : fc r = 1)]
        simp [List.count_cons, hrp]
  · refine ⟨⟨hnd, hsub, hout, hclause⟩, fun hb => ?_⟩
    exact Bool.noConfusion hb

theorem abortGame_spec (entered : List Nat) (s : SessionState) (h : SInv entered s) :
    (∀ p, p ∈ entered → (abortGame s).futureCount p = 1) ∧
      (∀ p, p ∉ entered → (abortGame s).futureCount p = 0) ∧
      (∀ p, p ∈ entered → ¬ TermEW p (abortGame s).log →
        (p, Msg.networkError) ∈ (abortGame s).log) := by
  obtain ⟨hnd, hsub, hout, hclause⟩ := h
  have hfc : ∀ r, (abortGame s).futureCount r = s.futureCount r + s.players.count r :=
    fun r => signalAll_apply _ _ _
  have hlog : (abortGame s).log =
      s.log ++ s.players.map (fun p => (p, Msg.networkError)) := rfl
  refine ⟨?_, ?_, ?_⟩
  · intro p hp
    rw [hfc]
    rcases hclause p hp with ⟨hin, hc0, _⟩ | ⟨hni, hc1, _⟩
    · rw [hc0, List.count_eq_one_of_mem hnd hin]
    · rw [hc1, List.count_eq_zero_of_not_mem hni]
  · intro p hp
    rw [hfc, hout p hp, List.count_eq_zero_of_not_mem (fun hin => hp (hsub p hin))]
  · intro p hp hnT
    rcases hclause p hp with ⟨hin, _, _⟩ | ⟨_, _, ht⟩
    · rw [hlog]
      exact List.mem_append_right _ (List.mem_map.mpr ⟨p, hin, rfl⟩)
    · refine absurd ?_ hnT
      rw [hlog]
      exact TermEW_append.mpr (Or.inl ht)

theorem executeNextRound_inv (entered : List Nat) (env : RoundEnv) (s : SessionState)
    (h : SInv entered s) :
    (∀ sF, executeNextRound env s = Except.error sF → SInv entered sF) ∧
      (∀ b s', executeNextRound env s = Except.ok (b, s') →
        SInv entered s' ∧ (b = false → s'.players = [])) := by
  cases hq : env.q? with
  | none =>
    constructor
    · intro sF hrun
      simp only [executeNextRound, hq] at hrun
      injection hrun with h1
      rw [← h1]
      exact h
    · intro b s' hrun
      simp only [executeNextRound, hq] at hrun
      simp at hrun
  | some q =>
    constructor
    · intro sF hrun
      simp only [executeNextRound, hq] at hrun
      simp at hrun
    · intro b s' hrun
      have hrun2 : executeNextRound env s =
          Except.ok ((notifyWinnerIfOneRemaining (roundMid env q s)).1,
            (notifyWinnerIfOneRemaining (roundMid env q s)).2) := by
        simp only [executeNextRound, hq]
      rw [hrun2] at hrun
      injection hrun with h1
      rw [Prod.mk.injEq] at h1
      obtain ⟨hb, hs⟩ := h1
      subst hb
      subst hs
      exact notifyWinner_inv entered (roundMid env q s) (roundMid_inv entered env q s h)

theorem runSession_spec (rounds : List RoundEnv) (entered : List Nat) :
    ∀ s : SessionState, SInv entered s →
      ((runSession rounds s).1 = RunOutcome.outOfFuel →
        SInv entered (runSession rounds s).2) ∧
      ((runSession rounds s).1 ≠ RunOutcome.outOfFuel →
        (∀ p, p ∈ entered → (runSession rounds s).2.futureCount p = 1) ∧
          (∀ p, p ∉ entered → (runSession rounds s).2.futureCount p = 0)) ∧
      ((runSession rounds s).1 = RunOutcome.aborted →
        ∀ p, p ∈ entered → ¬ TermEW p (runSession rounds s).2.log →
          (p, Msg.networkError) ∈ (runSession rounds s).2.log) := by
  induction rounds with
  | nil =>
    intro s h
    refine ⟨fun _ => h, fun hne => absurd rfl hne, fun habs => ?_⟩
    simp [runSession] at habs
  | cons env rest ih =>
    intro s h
    cases hstep : executeNextRound env s with
    | error sF =>
      have hinvF : SInv entered sF := (executeNextRound_inv entered env s h).1 sF hstep
      have habort := abortGame_spec entered sF hinvF
      have hrun : runSession (env :: rest) s = (RunOutcome.aborted, abortGame sF) := by
        simp [runSession, hstep]
      rw [hrun]
      refine ⟨fun hof => ?_, fun _ => ⟨habort.1, habort.2.1⟩, fun _ => habort.2.2⟩
      simp at hof
    | ok bs =>
      obtain ⟨b, s'⟩ := bs
      have hstep' := (executeNextRound_inv entered env s h).2 b s' hstep
      cases b with
      | true =>
        have hrun : runSession (env :: rest) s = runSession rest s' := by
          simp [runSession, hstep]
        rw [hrun]
        exact ih s' hstep'.1
      | false =>
        have hpe : s'.players = [] := hstep'.2 rfl
        have hrun : runSession (env :: rest) s = (RunOutcome.finished, s') := by
          simp [runSession, hstep]
        rw [hrun]
        obtain ⟨hnd, hsub, hout, hclause⟩ := hstep'.1
        refine ⟨fun hof => ?_, fun _ => ⟨?_, hout⟩, fun hab => ?_⟩
        · simp at hof
        · intro p hp
          rcases hclause p hp with ⟨hin, _, _⟩ | ⟨_, hc1, _⟩
          · rw [hpe] at hin
            cases hin
          · exact hc1
        · simp at hab

/-- C1: over a whole `GameSession.run()` — whether it returns normally or
raises (aborts) — every player that entered the session has its completion
future set exactly once, no player's future is ever set twice (also true of a
partial, fuel-exhausted run), and no other player's future is ever touched.
(`RunOutcome.outOfFuel` is the model's truncation of a still-running loop, not
an exit path of `run()`.) -/
theorem run_signals_each_player_exactly_once (gid : Nat) (rounds : List RoundEnv)
    (ps : List Nat) (hnd : ps.Nodup) :
    ((runSession rounds (initState gid ps)).1 ≠ RunOutcome.outOfFuel →
        ∀ p, p ∈ ps → (runSession rounds (initState gid ps)).2.futureCount p = 1) ∧
      (∀ p, p ∉ ps → (runSession rounds (initState gid ps)).2.futureCount p = 0) ∧
      (∀ p, (runSession rounds (initState gid ps)).2.futureCount p ≤ 1) := by
  have hspec := runSession_spec rounds ps (initState gid ps) (initState_SInv gid ps hnd)
  have hcases : ∀ p, (runSession rounds (initState gid ps)).2.futureCount p = 0 ∨
      (runSession rounds (initState gid ps)).2.futureCount p = 1 := by
    intro p
    by_cases ho : (runSession rounds (initState gid ps)).1 = RunOutcome.outOfFuel
    · obtain ⟨_, _, hout, hclause⟩ := hspec.1 ho
      by_cases hp : p ∈ ps
      · rcases hclause p hp with ⟨_, hc0, _⟩ | ⟨_, hc1, _⟩
        · exact Or.inl hc0
        · exact Or.inr hc1
      · exact Or.inl (hout p hp)
    · by_cases hp : p ∈ ps
      · exact Or.inr ((hspec.2.1 ho).1 p hp)
      · exact Or.inl ((hspec.2.1 ho).2 p hp)
  refine ⟨fun hne p hp => (hspec.2.1 hne).1 p hp, fun p hp => ?_, fun p => ?_⟩
  · by_cases ho : (runSession rounds (initState gid ps)).1 = RunOutcome.outOfFuel
    · exact (hspec.1 ho).2.2.1 p hp
    · exact (hspec.2.1 ho).2 p hp
  · rcases hcases p with h | h <;> omega

/-- A concrete two-player round environment: player 0 answers correctly,
player 1 times out. -/
def demoEnv : RoundEnv :=
  ⟨some ⟨"q", ["A", "B"], "A"⟩,
   fun p => if p = 0 then PlayerRecv.response (some "A") else PlayerRecv.timeout⟩

/-- Witness for `run_signals_each_player_exactly_once`: a two-player game in
which player 1 is eliminated in round 1 and player 0 is declared winner. -/
theorem run_signals_each_player_exactly_once_witness :
    ((runSession [demoEnv] (initState 1 [0, 1])).1 ≠ RunOutcome.outOfFuel →
        ∀ p, p ∈ [0, 1] →
          (runSession [demoEnv] (initState 1 [0, 1])).2.futureCount p = 1) ∧
      (∀ p, p ∉ [0, 1] →
        (runSession [demoEnv] (initState 1 [0, 1])).2.futureCount p = 0) ∧
      (∀ p, (runSession [demoEnv] (initState 1 [0, 1])).2.futureCount p ≤ 1) :=
  run_signals_each_player_exactly_once 1 [demoEnv] [0, 1] (by decide)

/-- C5: whenever `run()` ends because a round raised (`RunOutcome.aborted`,
the model of the exception re-raised to `run()`'s caller after `abort_game()`
— the failure is surfaced, not absorbed), every player that entered the
session has its future set exactly once, and every player still in the game
at the failure (i.e. with neither an elimination nor a winner announcement)
has been sent the network-error announcement. -/
theorem run_abort_broadcasts_and_signals (gid : Nat) (rounds : List RoundEnv)
    (ps : List Nat) (hnd : ps.Nodup)
    (habort : (runSession rounds (initState gid ps)).1 = RunOutcome.aborted) :
    (∀ p, p ∈ ps → (runSession rounds (initState gid ps)).2.futureCount p = 1) ∧
      (∀ p, p ∈ ps →
        (p, Msg.eliminatedMsg) ∉ (runSession rounds (initState gid ps)).2.log →
        (p, Msg.winner) ∉ (runSession rounds (initState gid ps)).2.log →
          (p, Msg.networkError) ∈ (runSession rounds (initState gid ps)).2.log) := by
  have hspec := runSession_spec rounds ps (initState gid ps) (initState_SInv gid ps hnd)
  have hne : (runSession rounds (initState gid ps)).1 ≠ RunOutcome.outOfFuel := by
    rw [habort]
    simp
  refine ⟨fun p hp => (hspec.2.1 hne).1 p hp, fun p hp hnoE hnoW => ?_⟩
  exact hspec.2.2 habort p hp (fun hT => hT.elim (fun h => hnoE h) (fun h => hnoW h))

/-- Witness for `run_abort_broadcasts_and_signals`: the question provider
fails in the very first round of a two-player game. -/
theorem run_abort_broadcasts_and_signals_witness :
    (∀ p, p ∈ [0, 1] →
        (runSession [⟨none, fun _ => PlayerRecv.timeout⟩]
          (initState 1 [0, 1])).2.futureCount p = 1) ∧
      (∀ p, p ∈ [0, 1] →
        (p, Msg.eliminatedMsg) ∉
            (runSession [⟨none, fun _ => PlayerRecv.timeout⟩] (initState 1 [0, 1])).2.log →
        (p, Msg.winner) ∉
            (runSession [⟨none, fun _ => PlayerRecv.timeout⟩] (initState 1 [0, 1])).2.log →
          (p, Msg.networkError) ∈
            (runSession [⟨none, fun _ => PlayerRecv.timeout⟩] (initState 1 [0, 1])).2.log) :=
  run_abort_broadcasts_and_signals 1 [⟨none, fun _ => PlayerRecv.timeout⟩] [0, 1]
    (by decide) rfl

/-- `hqtrivia/gamemanager.py`: the `GameManager` state shared across
connections — the waiting queue and the next game id. -/
structure MMState where
  waitingPlayers : List Nat
  nextGameId : Nat
deriving DecidableEq

/-- The observable action taken by one `wait_until_game_complete` call:
either a new `GameSession` is constructed (and `game.run()` is awaited on it),
or the offering player is sent the waiting-for-N-players announcement. -/
inductive OfferResult where
  | started : SessionState → OfferResult
  | waitingAnnounced : Nat → Nat → OfferResult

/-- `hqtrivia/gamemanager.py`: `GameManager.wait_until_game_complete` — appends
the new player to `waiting_players`; if the queue has reached
`CONFIG_PLAYERS_PER_GAME` (the quorum), constructs
`GameSession(next_game_id, waiting_players)` (which copies the list),
increments `next_game_id`, clears the queue and runs the game; otherwise
sends the player the waiting-for-quorum announcement. -/
def waitUntilGameComplete (quorum : Nat) (p : Nat) (m : MMState) :
    MMState × OfferResult :=
  let w := m.waitingPlayers ++ [p]
  if quorum ≤ w.length then
    (⟨[], m.nextGameId + 1⟩, OfferResult.started (initState m.nextGameId w))
  else
    (⟨w, m.nextGameId⟩, OfferResult.waitingAnnounced p quorum)

/-- C8: one `wait_until_game_complete` (offer) call, under the queue invariant
`|waitingQueue| < quorum` and with every previously allocated game id below
`nextGameId`: the handle is appended to the queue; if the queue thereby
reaches the quorum, exactly `quorum` handles — oldest first — are drained
into a new session whose id is `nextGameId`, strictly greater than every
previously allocated id, the session's run loop is started on exactly those
players, and the id counter increases; otherwise the offering player gets the
waiting-for-quorum announcement and only the queue grows.  The queue
invariant is preserved either way. -/
theorem offer_behavior (quorum p : Nat) (m : MMState) (allocated : List Nat)
    (hq : 1 ≤ quorum) (hlen : m.waitingPlayers.length < quorum)
    (hprev : ∀ i, i ∈ allocated → i < m.nextGameId) :
    (m.waitingPlayers.length + 1 = quorum →
        waitUntilGameComplete quorum p m =
          (⟨[], m.nextGameId + 1⟩,
            OfferResult.started (initState m.nextGameId (m.waitingPlayers ++ [p]))) ∧
          (m.waitingPlayers ++ [p]).length = quorum ∧
          (initState m.nextGameId (m.waitingPlayers ++ [p])).players =
            m.waitingPlayers ++ [p] ∧
          (∀ i, i ∈ allocated → i < m.nextGameId) ∧
          (∀ i, i ∈ allocated ++ [m.nextGameId] → i < m.nextGameId + 1)) ∧
      (m.waitingPlayers.length + 1 ≠ quorum →
        waitUntilGameComplete quorum p m =
          (⟨m.waitingPlayers ++ [p], m.nextGameId⟩,
            OfferResult.waitingAnnounced p quorum)) ∧
      (waitUntilGameComplete quorum p m).1.waitingPlayers.length < quorum := by
  by_cases hfull : m.waitingPlayers.length + 1 = quorum
  · have hcond : quorum ≤ m.waitingPlayers.length + 1 := le_of_eq hfull.symm
    have heq : waitUntilGameComplete quorum p m =
        (⟨[], m.nextGameId + 1⟩,
          OfferResult.started (initState m.nextGameId (m.waitingPlayers ++ [p]))) := by
      simp [waitUntilGameComplete, hcond]
    refine ⟨fun _ => ⟨heq, by simp [hfull], rfl, hprev, ?_⟩, fun hne => absurd hfull hne, ?_⟩
    · intro i hi
      rcases List.mem_append.mp hi with hi | hi
      · exact Nat.lt_succ_of_lt (hprev i hi)
      · rw [List.mem_singleton.mp hi]
        exact Nat.lt_succ_self _
    · rw [heq]
      exact Nat.lt_of_lt_of_le Nat.zero_lt_one hq
  · have hcond : ¬ quorum ≤ m.waitingPlayers.length + 1 := by omega
    have heq : waitUntilGameComplete quorum p m =
        (⟨m.waitingPlayers ++ [p], m.nextGameId⟩,
          OfferResult.waitingAnnounced p quorum) := by
      simp [waitUntilGameComplete, hcond]
    refine ⟨fun hf => absurd hf hfull, fun _ => heq, ?_⟩
    rw [heq]
    simp only [List.length_append, List.length_singleton]
    omega

/-- Witness for `offer_behavior`: quorum 2, one player already waiting, a
second player arrives and the session starts. -/
theorem offer_behavior_witness :
    ((⟨[4], 1⟩ : MMState).waitingPlayers.length + 1 = 2 →
        waitUntilGameComplete 2 9 ⟨[4], 1⟩ =
          (⟨[], 2⟩, OfferResult.started (initState 1 ([4] ++ [9]))) ∧
          (([4] : List Nat) ++ [9]).length = 2 ∧
          (initState 1 ([4] ++ [9])).players = [4] ++ [9] ∧
          (∀ i, i ∈ ([0] : List Nat) → i < 1) ∧
          (∀ i, i ∈ ([0] : List Nat) ++ [1] → i < 2)) ∧
      ((⟨[4], 1⟩ : MMState).waitingPlayers.length + 1 ≠ 2 →
        waitUntilGameComplete 2 9 ⟨[4], 1⟩ =
          (⟨[4] ++ [9], 1⟩, OfferResult.waitingAnnounced 9 2)) ∧
      (waitUntilGameComplete 2 9 ⟨[4], 1⟩).1.waitingPlayers.length < 2 :=
  offer_behavior 2 9 ⟨[4], 1⟩ [0] (by decide) (by decide) (by decide)
